import Mathlib

/-!
Verification development for the OrganizaAi expense-tracking backend
(receipt-ingestion pipeline).  The Python sources under `app/services/`
(`parser.py`, `file_handler.py`, `llm_client.py`), the app route
`app/routes/ocr.py` and the FastAPI pipeline `main.py` are shallowly
embedded below: pure string manipulation is modelled on `List Char` /
`String`, Python dictionaries parsed from JSON are modelled by the
inductive type `JVal`, Python exceptions by `Except PyErr`, and the
filesystem / network side effects by explicit state passing (a list of
written file paths, a boolean network-call flag, and oracle parameters
for the external model's answers).  Numeric values (Python floats) are
modelled as exact rationals `ℚ`; the claims under study concern
selection and coercion logic, not IEEE rounding.
-/

namespace OrganizaAi

/-! ## Character and list utilities (Python `str` helpers on `List Char`) -/

/-- The backtick character (written via its code point). -/
def tickChar : Char := Char.ofNat 96

/-- Python `str.strip()` whitespace class (ASCII part). -/
def isWsPy (c : Char) : Bool :=
  c = ' ' || c = '\t' || c = '\n' || c = '\r' || c = Char.ofNat 11 || c = Char.ofNat 12

/-- A literal dot, the argument of `.strip('.')` in the classifier. -/
def isDotC (c : Char) : Bool := c = '.'

/-- Characters stripped by either of the classifier's `strip` calls. -/
def isWsDot (c : Char) : Bool := isWsPy c || isDotC c

/-- ASCII lowercasing of one character (model of Python `str.lower` on
the ASCII inputs used in this code base). -/
def lowerC (c : Char) : Char :=
  if 'A' ≤ c ∧ c ≤ 'Z' then Char.ofNat (c.toNat + 32) else c

/-- ASCII lowercasing of a character list. -/
def lowerL (l : List Char) : List Char := l.map lowerC

/-- `isPref p l` is true when `p` is a prefix of `l`
(Python `str.startswith`, used to model substring search). -/
def isPref : List Char → List Char → Bool
  | [], _ => true
  | _ :: _, [] => false
  | a :: as, b :: bs => a == b && isPref as bs

/-- `isSubstr needle hay` models the Python `in` operator on strings. -/
def isSubstr (needle : List Char) : List Char → Bool
  | [] => isPref needle []
  | c :: t => isPref needle (c :: t) || isSubstr needle t

/-- Fuelled worker for `replaceAll`; the fuel is an upper bound on the
input length, so the out-of-fuel branch is never taken. -/
def replaceAllF (pat : List Char) : Nat → List Char → List Char
  | _, [] => []
  | 0, l => l
  | f + 1, c :: rest =>
    if pat ≠ [] ∧ isPref pat (c :: rest) = true then
      replaceAllF pat f ((c :: rest).drop pat.length)
    else
      c :: replaceAllF pat f rest

/-- Model of Python `str.replace(pat, "")`: delete every non-overlapping
occurrence of `pat`, scanning left to right. -/
def replaceAll (pat : List Char) (l : List Char) : List Char :=
  replaceAllF pat l.length l

/-- Strip all characters satisfying `p` from both ends
(Python `str.strip(chars)`). -/
def trimBothB (p : Char → Bool) (l : List Char) : List Char :=
  ((l.dropWhile p).reverse.dropWhile p).reverse

/-- Drop trailing characters satisfying `p`. -/
def trimTrailB (p : Char → Bool) (l : List Char) : List Char :=
  (l.reverse.dropWhile p).reverse

/-- Decimal digits to a natural number. -/
def digitsToNat (l : List Char) : Nat :=
  l.foldl (fun n c => n * 10 + (c.toNat - 48)) 0

/-! ## Python values decoded from JSON, truthiness and numeric coercion -/

/-- The values produced by `json.loads`: `None`, booleans, numbers
(`int`/`float`, modelled exactly as rationals), strings, lists and
dictionaries (association lists; later duplicate keys override earlier
ones, as in Python dicts built by the decoder). -/
inductive JVal where
  | null : JVal
  | bool (b : Bool) : JVal
  | num (q : ℚ) : JVal
  | str (s : String) : JVal
  | arr (l : List JVal) : JVal
  | obj (l : List (String × JVal)) : JVal

/-- Python truthiness of a `JVal`. -/
def truthyJ : JVal → Bool
  | .null => false
  | .bool b => b
  | .num q => q ≠ 0
  | .str s => s ≠ ""
  | .arr l => ¬ l.isEmpty
  | .obj l => ¬ l.isEmpty

/-- Python exceptions that the embedded code can raise. -/
inductive PyErr where
  | valueError (msg : String) : PyErr
  | typeError (msg : String) : PyErr
  | attributeError (msg : String) : PyErr
deriving DecidableEq

/-- Dictionary lookup with Python-dict override semantics: the *last*
binding of a key wins (as when `json.loads` builds a dict from a JSON
text with duplicate keys). -/
def lookupLast (kvs : List (String × JVal)) (k : String) : Option JVal :=
  match kvs.reverse.find? (fun kv => kv.1 == k) with
  | some kv => some kv.2
  | none => none

/-- `d.get(k, dflt)` on a dictionary value. -/
def pyGetD (kvs : List (String × JVal)) (k : String) (dflt : JVal) : JVal :=
  (lookupLast kvs k).getD dflt

/-- `data.get(k) or dflt`: the Python `or` keeps the looked-up value only
when it is truthy, and falls back to `dflt` otherwise (also when the key
is absent, since `get` then returns the falsy `None`). -/
def getOrDefault (kvs : List (String × JVal)) (k : String) (dflt : JVal) : JVal :=
  match lookupLast kvs k with
  | some v => if truthyJ v then v else dflt
  | none => dflt

/-- Parse a Python `float(...)` string argument: optional surrounding
whitespace, optional sign, digits with optional decimal point and
optional exponent.  (`inf`, `nan` and digit-group underscores are not
modelled; they do not occur in this pipeline.) -/
def floatOfChars (l0 : List Char) : Option ℚ :=
  let l := trimTrailB isWsPy (l0.dropWhile isWsPy)
  let (neg, l1) :=
    match l with
    | '-' :: t => (true, t)
    | '+' :: t => (false, t)
    | _ => (false, l)
  let ds := l1.takeWhile Char.isDigit
  let l2 := l1.drop ds.length
  let (fr, l3) :=
    match l2 with
    | '.' :: t => (t.takeWhile Char.isDigit, t.drop (t.takeWhile Char.isDigit).length)
    | _ => ([], l2)
  if ds.isEmpty && fr.isEmpty then none
  else
    let (epos, eds, l4) :=
      match l3 with
      | 'e' :: t | 'E' :: t =>
        match t with
        | '-' :: u => (false, u.takeWhile Char.isDigit, u.drop (u.takeWhile Char.isDigit).length)
        | '+' :: u => (true, u.takeWhile Char.isDigit, u.drop (u.takeWhile Char.isDigit).length)
        | _ => (true, t.takeWhile Char.isDigit, t.drop (t.takeWhile Char.isDigit).length)
      | _ => (true, [], l3)
    let hasExp : Bool :=
      match l3 with
      | 'e' :: _ | 'E' :: _ => true
      | _ => false
    if hasExp && eds.isEmpty then none
    else if ¬ l4.isEmpty then none
    else
      let m : ℚ := (digitsToNat (ds ++ fr) : ℚ) / ((10 : ℚ) ^ fr.length)
      let e : ℚ :=
        if epos then m * (10 : ℚ) ^ digitsToNat eds
        else m / (10 : ℚ) ^ digitsToNat eds
      some (if neg then -e else e)

/-- Parse a Python `int(...)` string argument: optional surrounding
whitespace, optional sign, one or more digits. -/
def intOfChars (l0 : List Char) : Option ℤ :=
  let l := trimTrailB isWsPy (l0.dropWhile isWsPy)
  let (neg, l1) :=
    match l with
    | '-' :: t => (true, t)
    | '+' :: t => (false, t)
    | _ => (false, l)
  let ds := l1.takeWhile Char.isDigit
  if ds.isEmpty || ¬ (l1.drop ds.length).isEmpty then none
  else
    let n : ℤ := (digitsToNat ds : ℤ)
    some (if neg then -n else n)

/-- Truncation toward zero, the behaviour of Python `int(float)`. -/
def ratTrunc (q : ℚ) : ℤ :=
  if 0 ≤ q then ((q.num.toNat / q.den : ℕ) : ℤ) else -(((-q.num).toNat / q.den : ℕ) : ℤ)

/-- Python `float(x)` on a decoded JSON value. -/
def pyFloat : JVal → Except PyErr ℚ
  | .num q => .ok q
  | .bool b => .ok (if b then 1 else 0)
  | .str s =>
    match floatOfChars s.toList with
    | some q => .ok q
    | none => .error (.valueError "could not convert string to float")
  | .null => .error (.typeError "float argument must be a string or a number, not NoneType")
  | .arr _ => .error (.typeError "float argument must be a string or a number, not list")
  | .obj _ => .error (.typeError "float argument must be a string or a number, not dict")

/-- Python `int(x)` on a decoded JSON value. -/
def pyInt : JVal → Except PyErr ℤ
  | .num q => .ok (ratTrunc q)
  | .bool b => .ok (if b then 1 else 0)
  | .str s =>
    match intOfChars s.toList with
    | some n => .ok n
    | none => .error (.valueError "invalid literal for int with base 10")
  | .null => .error (.typeError "int argument must be a string or a number, not NoneType")
  | .arr _ => .error (.typeError "int argument must be a string or a number, not list")
  | .obj _ => .error (.typeError "int argument must be a string or a number, not dict")

/-! ## A strict JSON decoder (model of `json.loads`)

`json.loads` skips whitespace around the document, then parses one JSON
value and requires that nothing but whitespace follows.  The embedding
first trims trailing whitespace and then runs an exact fuelled
recursive-descent parser; the two presentations agree because no JSON
token ever absorbs trailing document whitespace. -/

/-- JSON structural whitespace. -/
def isJWs (c : Char) : Bool := c = ' ' || c = '\t' || c = '\n' || c = '\r'

/-- Hexadecimal digit value. -/
def hexVal (c : Char) : Option Nat :=
  if '0' ≤ c ∧ c ≤ '9' then some (c.toNat - 48)
  else if 'a' ≤ c ∧ c ≤ 'f' then some (c.toNat - 87)
  else if 'A' ≤ c ∧ c ≤ 'F' then some (c.toNat - 55)
  else none

/-- Parse the body of a JSON string (the opening quote already consumed),
in strict mode: raw control characters are rejected; the usual escapes
are decoded. -/
def pStrBody : Nat → List Char → List Char → Option (String × List Char)
  | 0, _, _ => none
  | _ + 1, acc, cs =>
    match cs with
    | [] => none
    | c :: rest =>
      if c = Char.ofNat 34 then some (String.mk acc.reverse, rest)
      else if c = Char.ofNat 92 then
        match rest with
        | [] => none
        | e :: rest2 =>
          if e = Char.ofNat 34 ∨ e = Char.ofNat 92 ∨ e = '/' then
            pStrBody (acc.length + rest2.length) (e :: acc) rest2
          else if e = 'b' then pStrBody (acc.length + rest2.length) (Char.ofNat 8 :: acc) rest2
          else if e = 'f' then pStrBody (acc.length + rest2.length) (Char.ofNat 12 :: acc) rest2
          else if e = 'n' then pStrBody (acc.length + rest2.length) ('\n' :: acc) rest2
          else if e = 'r' then pStrBody (acc.length + rest2.length) ('\r' :: acc) rest2
          else if e = 't' then pStrBody (acc.length + rest2.length) ('\t' :: acc) rest2
          else if e = 'u' then
            match rest2 with
            | h1 :: h2 :: h3 :: h4 :: rest3 =>
              match hexVal h1, hexVal h2, hexVal h3, hexVal h4 with
              | some a, some b, some c2, some d =>
                pStrBody (acc.length + rest3.length)
                  (Char.ofNat (((a * 16 + b) * 16 + c2) * 16 + d) :: acc) rest3
              | _, _, _, _ => none
            | _ => none
          else none
      else if c.toNat < 32 then none
      else pStrBody (acc.length + rest.length) (c :: acc) rest

/-- Parse a JSON number (strict grammar: no leading zeros, a fractional
part and an exponent part must be non-empty when introduced). -/
def pNum (cs : List Char) : Option (ℚ × List Char) :=
  let (neg, cs1) :=
    match cs with
    | '-' :: t => (true, t)
    | _ => (false, cs)
  let ds := cs1.takeWhile Char.isDigit
  let cs2 := cs1.drop ds.length
  if ds.isEmpty then none
  else if 1 < ds.length ∧ ds.head? = some '0' then none
  else
    match cs2 with
    | '.' :: t =>
      let fr := t.takeWhile Char.isDigit
      let cs3 := t.drop fr.length
      if fr.isEmpty then none
      else pNumExp neg ds fr cs3
    | _ => pNumExp neg ds [] cs2
where
  /-- Optional exponent part and value assembly. -/
  pNumExp (neg : Bool) (ds fr : List Char) (cs : List Char) : Option (ℚ × List Char) :=
    let m : ℚ := (digitsToNat (ds ++ fr) : ℚ) / ((10 : ℚ) ^ fr.length)
    let base : ℚ := if neg then -m else m
    match cs with
    | 'e' :: t | 'E' :: t =>
      let (epos, u) :=
        match t with
        | '-' :: u => (false, u)
        | '+' :: u => (true, u)
        | _ => (true, t)
      let eds := u.takeWhile Char.isDigit
      if eds.isEmpty then none
      else
        let q := if epos then base * (10 : ℚ) ^ digitsToNat eds
                 else base / (10 : ℚ) ^ digitsToNat eds
        some (q, u.drop eds.length)
    | _ => some (base, cs)

mutual

/-- Parse one JSON value (leading whitespace skipped first). -/
def pVal : Nat → List Char → Option (JVal × List Char)
  | 0, _ => none
  | f + 1, cs0 =>
    let cs := cs0.dropWhile isJWs
    match cs with
    | [] => none
    | c :: rest =>
      if c = Char.ofNat 34 then
        match pStrBody rest.length [] rest with
        | some (s, r) => some (.str s, r)
        | none => none
      else if c = Char.ofNat 123 then pObjItems f rest
      else if c = '[' then pArrItems f rest
      else if isPref ['t', 'r', 'u', 'e'] cs then some (.bool true, cs.drop 4)
      else if isPref ['f', 'a', 'l', 's', 'e'] cs then some (.bool false, cs.drop 5)
      else if isPref ['n', 'u', 'l', 'l'] cs then some (.null, cs.drop 4)
      else if c = '-' ∨ c.isDigit then
        match pNum cs with
        | some (q, r) => some (.num q, r)
        | none => none
      else none

/-- Parse the members of a JSON object (the opening brace consumed). -/
def pObjItems : Nat → List Char → Option (JVal × List Char)
  | 0, _ => none
  | f + 1, cs0 =>
    let cs := cs0.dropWhile isJWs
    match cs with
    | c :: rest =>
      if c = Char.ofNat 125 then some (.obj [], rest)
      else if c = Char.ofNat 34 then
        match pStrBody rest.length [] rest with
        | some (k, r1) => pObjTail f k r1 []
        | none => none
      else none
    | [] => none

/-- After an object key: expect a colon, a value, then a comma or a
closing brace. -/
def pObjTail : Nat → String → List Char → List (String × JVal) → Option (JVal × List Char)
  | 0, _, _, _ => none
  | f + 1, k, cs0, acc =>
    let cs := cs0.dropWhile isJWs
    match cs with
    | ':' :: rest =>
      match pVal f rest with
      | some (v, r1) =>
        let r2 := r1.dropWhile isJWs
        match r2 with
        | ',' :: r3 =>
          let r4 := r3.dropWhile isJWs
          match r4 with
          | c :: r5 =>
            if c = Char.ofNat 34 then
              match pStrBody r5.length [] r5 with
              | some (k2, r6) => pObjTail f k2 r6 (acc ++ [(k, v)])
              | none => none
            else none
          | [] => none
        | c :: r3 =>
          if c = Char.ofNat 125 then some (.obj (acc ++ [(k, v)]), r3) else none
        | [] => none
      | none => none
    | _ => none

/-- Parse the elements of a JSON array (the opening bracket consumed). -/
def pArrItems : Nat → List Char → Option (JVal × List Char)
  | 0, _ => none
  | f + 1, cs0 =>
    let cs := cs0.dropWhile isJWs
    match cs with
    | ']' :: rest => some (.arr [], rest)
    | _ => pArrTail f cs []

/-- Array elements after the first position: a value, then a comma or a
closing bracket. -/
def pArrTail : Nat → List Char → List JVal → Option (JVal × List Char)
  | 0, _, _ => none
  | f + 1, cs, acc =>
    match pVal f cs with
    | some (v, r1) =>
      let r2 := r1.dropWhile isJWs
      match r2 with
      | ',' :: r3 => pArrTail f r3 (acc ++ [v])
      | ']' :: r3 => some (.arr (acc ++ [v]), r3)
      | _ => none
    | none => none

end

/-- Model of `json.loads` on a character list: trim trailing whitespace,
parse one value, require that nothing follows. -/
def jsonLoadsL (l : List Char) : Option JVal :=
  let t := trimTrailB isJWs l
  match pVal (t.length + 1) t with
  | some (v, rest) => if (rest.dropWhile isJWs).isEmpty then some v else none
  | none => none

/-- Model of `json.loads` on a string. -/
def jsonLoads (s : String) : Option JVal := jsonLoadsL s.toList

/-! ## `app/services/parser.py` — `ResponseParser`

`parse_llm_response` is annotated `response: dict` but its first line,
`response.strip("` `")`, is a *string* operation; the claims about it
concern completion texts, so the embedding below takes the completion
text (a string).  Its cleanup step is
`response.strip("` `").replace("json\n", "").replace("\n``` `", "")`
(strip backticks from both ends, then delete every occurrence of the
tag `json\n` and of the fence `\n``` `). -/

/-- The `"json\n"` pattern deleted by the cleanup. -/
def jsonTagL : List Char := ['j', 's', 'o', 'n', '\n']

/-- The `"\n```"` pattern deleted by the cleanup. -/
def fenceL : List Char := ['\n', tickChar, tickChar, tickChar]

/-- The cleanup applied before `json.loads`
(`parser.py` line 21) on a character list. -/
def cleanupL (l : List Char) : List Char :=
  replaceAll fenceL (replaceAll jsonTagL (trimBothB (fun c => c = tickChar) l))

/-- The cleanup applied before `json.loads` on a string. -/
def cleanup (s : String) : String := String.mk (cleanupL s.toList)

/-- The dictionary returned by `parse_llm_response` on success:
`{"success": True, "data": parsed, "raw_response": content}`. -/
structure PResult where
  success : Bool
  data : Option JVal
  raw_response : String

/-- `ResponseParser.parse_llm_response` on a completion text.

On valid JSON after cleanup it returns the success dictionary, whose
`raw_response` is the *cleaned* content.  On a `json.JSONDecodeError`
the handler at line 31 evaluates
`response.get("choices", [{}])[0]...` — but `response` is a `str`,
which has no `get` method, so an `AttributeError` is raised *from
inside the handler* and (since sibling `except` clauses of the same
`try` do not catch it) propagates out of the function. -/
def parse_llm_response (response : String) : Except PyErr PResult :=
  let content := cleanup response
  match jsonLoads content with
  | some v => .ok ⟨true, some v, content⟩
  | none => .error (.attributeError "str object has no attribute get")

/-- One normalized line item (`parser.py` lines 76–81).  `nome` is
copied verbatim from the raw item (any JSON value), the numeric fields
are coerced. -/
structure LineItem where
  nome : JVal
  quantidade : ℤ
  valor_unitario : ℚ
  valor_total : ℚ

/-- The normalized receipt built by `_validate_receipt_data`. -/
structure ValidatedReceipt where
  loja : JVal
  data_compra : JVal
  itens : List LineItem
  valor_total : ℚ
  forma_pagamento : JVal
  categoria : JVal
  texto_bruto : JVal

/-- Processing of one raw item inside the `for` loop (lines 73–85).
The surrounding `try` catches `ValueError` and `TypeError`, which are
exactly the exceptions the three coercions can raise, so a failing item
yields `none` (the `continue` branch).  Evaluation order follows the
source: `valor` first, then the dict literal fields in order
(`nome` cannot fail, `int(quantidade)`, `float(valor_unitario)`). -/
def itemStep (ikvs : List (String × JVal)) : Option LineItem :=
  let vt := pyGetD ikvs "valor_total" (.num 0)
  let src := if truthyJ vt then vt else pyGetD ikvs "valor" (.num 0)
  match pyFloat src with
  | .error _ => none
  | .ok valor =>
    let nome := pyGetD ikvs "nome" (.str "Item desconhecido")
    match pyInt (pyGetD ikvs "quantidade" (.num 1)) with
    | .error _ => none
    | .ok qty =>
      match pyFloat (pyGetD ikvs "valor_unitario" (.num valor)) with
      | .error _ => none
      | .ok unit => some ⟨nome, qty, unit, valor⟩

/-- One pass of the item loop's body on the running state (kept items
and accumulated total).  An element that is not a dictionary makes
`item.get` raise `AttributeError`, which the `except (ValueError,
TypeError)` clause does not catch; a raised exception is modelled by
the absorbing `.error` state. -/
def iterBody (st : Except PyErr (List LineItem × ℚ)) (e : JVal) :
    Except PyErr (List LineItem × ℚ) :=
  match st with
  | .error err => .error err
  | .ok (acc, t) =>
    match e with
    | .obj ikvs =>
      match itemStep ikvs with
      | some li => .ok (acc ++ [li], t + li.valor_total)
      | none => .ok (acc, t)
    | _ => .error (.attributeError "item has no attribute get")

/-- The item loop: iterates over the raw items, appending the survivors
and accumulating `total += valor` (lines 73–85). -/
def iterLoop (elems : List JVal) : Except PyErr (List LineItem × ℚ) :=
  elems.foldl iterBody (.ok ([], 0))

/-- `for item in items` over the value of `data.get("itens", [])`.
Lists iterate over their elements; an empty string or empty dict
iterates zero times; a non-empty string or dict yields non-dict items
(characters / keys), on which `item.get` raises `AttributeError`; other
values are not iterable (`TypeError`). -/
def iterItems : JVal → Except PyErr (List LineItem × ℚ)
  | .arr elems => iterLoop elems
  | .str s => if s.isEmpty then .ok ([], 0) else .error (.attributeError "str object has no attribute get")
  | .obj kvs => if kvs.isEmpty then .ok ([], 0) else .error (.attributeError "str object has no attribute get")
  | _ => .error (.typeError "object is not iterable")

/-- `ResponseParser._validate_receipt_data` (lines 48–90).  The input
must be a dictionary (otherwise `data.get` raises `AttributeError`).
The defaults use Python `or`, the item loop drops uncoercible items,
and line 88 computes
`float(data.get("valor_total", total) or total)` — which can itself
raise `ValueError`/`TypeError` on an uncoercible truthy value. -/
def validate_receipt_data : JVal → Except PyErr ValidatedReceipt
  | .obj kvs =>
    let loja := getOrDefault kvs "loja" (.str "Não identificado")
    let data_compra := getOrDefault kvs "data_compra" .null
    let forma_pagamento := getOrDefault kvs "forma_pagamento" (.str "Não identificado")
    let categoria := getOrDefault kvs "categoria" (.str "Não Classificado")
    let texto_bruto := getOrDefault kvs "texto_bruto" (.str "")
    match iterItems (pyGetD kvs "itens" (.arr [])) with
    | .error e => .error e
    | .ok (itens, total) =>
      let vtv := pyGetD kvs "valor_total" (.num total)
      let chosen := if truthyJ vtv then vtv else .num total
      match pyFloat chosen with
      | .error e => .error e
      | .ok q => .ok ⟨loja, data_compra, itens, q, forma_pagamento, categoria, texto_bruto⟩
  | _ => .error (.attributeError "object has no attribute get")

/-! ## `app/services/file_handler.py` — `FileHandler`

The filesystem is modelled as the list of file paths written so far.
`init_upload_dir` only creates a directory (no file), so it does not
touch the list.  `werkzeug.secure_filename` is an external library
function and is passed in as an opaque sanitizer parameter; it only
affects the stored name, not the accept/reject decision. -/

/-- The extension allow-list (`FileHandler.ALLOWED_EXTENSIONS`). -/
def ALLOWED_EXTENSIONS : List String := ["png", "jpg", "jpeg", "pdf"]

/-- `filename.rsplit('.', 1)[1]`: the characters after the last dot. -/
def afterLastDot (l : List Char) : List Char :=
  (l.reverse.takeWhile (fun c => c ≠ '.')).reverse

/-- ASCII lowercase of a string. -/
def lowerS (s : String) : String := String.mk (lowerL s.toList)

/-- `FileHandler.allowed_file` (lines 18–22):
`'.' in filename and filename.rsplit('.', 1)[1].lower() in ALLOWED_EXTENSIONS`. -/
def allowed_file (filename : String) : Bool :=
  decide ('.' ∈ filename.toList)
    && decide (lowerS (String.mk (afterLastDot filename.toList)) ∈ ALLOWED_EXTENSIONS)

/-- `FileHandler.save_uploaded_file` (lines 24–56) over an explicit
filesystem state `fs`.  The directory is created first (no file
written), the extension gate runs next, and only then is the file
saved.  Returns the pair `(absolute path, unique name)` together with
the new filesystem; on rejection the filesystem is unchanged. -/
def save_uploaded_file (sanitize : String → String) (fs : List String)
    (filename : String) (user_id : ℤ) (timestamp : String) :
    Except PyErr (String × String) × List String :=
  if ¬ allowed_file filename then
    (.error (.valueError "Tipo de arquivo não permitido. Use: png, jpg, jpeg, pdf"), fs)
  else
    let unique := toString user_id ++ "_" ++ timestamp ++ "_" ++ sanitize filename
    let path := "uploads/" ++ unique
    (.ok (path, unique), fs ++ [path])

/-! ## `app/services/llm_client.py` — `GeminiClient`

The two outbound calls (vision analysis, category classification) are
external network effects; each embedding takes the call's outcome as an
oracle parameter and reports, alongside its result, whether a network
request was issued. -/

/-- Outcomes of the file read in `analyze_receipt_image` (lines 60–69). -/
inductive ReadErr where
  | notFound : ReadErr
  | other : ReadErr

/-- Outcomes of an outbound model call: the SDK raising, a REST
timeout, a REST connection failure, a REST HTTP error status, or a
completion text. -/
inductive CallErr where
  | sdkError : CallErr
  | timeout : CallErr
  | connError : CallErr
  | httpError (status : Nat) : CallErr

/-- The configuration-failure message of `analyze_receipt_image`
(lines 51–54), raised before anything else happens. -/
def configErrMsg : String :=
  "Chave do Gemini/Google não configurada. Configure GOOGLE_API_KEY ou GOOGLE_APPLICATION_CREDENTIALS."

/-- `GeminiClient.analyze_receipt_image` control flow.  `apiKey` models
`GeminiClient.API_KEY`, `appCreds` the `GOOGLE_APPLICATION_CREDENTIALS`
variable, `readRes` the attempt to read and base64-encode the image,
`genaiAvail` whether the SDK import succeeded, and `callRes` the
outcome of the outbound request.  The returned flag records whether a
network request was made. -/
def analyze_receipt_image (apiKey appCreds : Option String)
    (readRes : Except ReadErr Unit) (genaiAvail : Bool)
    (callRes : Except CallErr String) (imagePath : String) :
    Except PyErr String × Bool :=
  if apiKey = none ∧ appCreds = none then
    (.error (.valueError configErrMsg), false)
  else
    match readRes with
    | .error .notFound => (.error (.valueError ("Arquivo não encontrado: " ++ imagePath)), false)
    | .error .other => (.error (.valueError "Erro ao ler imagem"), false)
    | .ok _ =>
      if genaiAvail then
        match callRes with
        | .ok content => (.ok content, true)
        | .error _ =>
          (.error (.valueError "Erro ao comunicar com Gemini; verifique credenciais e instalação da biblioteca."), true)
      else
        match callRes with
        | .ok content => (.ok content, true)
        | .error .timeout =>
          (.error (.valueError "Timeout ao processar imagem no endpoint Gemini REST. Tente imagem menor."), true)
        | .error .connError =>
          (.error (.valueError "Erro de conexão com o endpoint Gemini REST. Verifique a internet."), true)
        | .error (.httpError st) =>
          (.error (.valueError ("Erro HTTP " ++ toString st ++ " da API Gemini")), true)
        | .error .sdkError => (.error (.valueError "Erro inesperado Gemini REST"), true)

/-- The category enum, in the iteration order of
`valid_categories = ["Food", "Transport", "Utility", "Entertainment"]`. -/
def validCategories : List String := ["Food", "Transport", "Utility", "Entertainment"]

/-- Python `str.strip()` on a string. -/
def pyStrip (s : String) : String := String.mk (trimBothB isWsPy s.toList)

/-- `category.strip().strip('.').strip()` (line 300). -/
def cleanCatL (l : List Char) : List Char :=
  trimBothB isWsPy (trimBothB isDotC (trimBothB isWsPy l))

/-- The substring fallback of lines 304–306 followed by the default of
line 309: the first enum value whose lowercase form occurs in the
lowercase raw answer, else `"Utility"`. -/
def substrFallback (category : List Char) : List Char :=
  match validCategories.find? (fun c => isSubstr (lowerL c.toList) (lowerL category)) with
  | some c => c.toList
  | none => "Utility".toList

/-- The answer-validation tail of `classify_expense_category`
(lines 298–309): exact membership of the stripped answer in the enum,
else the case-insensitive substring fallback on the raw answer, else
`"Utility"`. -/
def codeValidateCat (category : List Char) : List Char :=
  let c := cleanCatL category
  if validCategories.contains (String.mk c) then c else substrFallback category

/-- Modelled from the spec: the validation described by the claim —
the *raw* answer is matched case-sensitively against the enum first,
then by case-insensitive substring search, with default `"Utility"`.
Stated separately so the code's validation (which strips whitespace
and dots before the exact match) can be proved equivalent to it. -/
def specValidateCat (category : List Char) : List Char :=
  if validCategories.contains (String.mk category) then category else substrFallback category

/-- The names joined into the classification prompt (lines 228–232):
`[item.get('nome', '') for item in items[:10] if item.get('nome')]`.
The filter keeps items whose `nome` is truthy; the kept element is that
same value. -/
def nomesOf (items : List (List (String × JVal))) : List JVal :=
  (items.take 10).filterMap fun it =>
    match lookupLast it "nome" with
    | some v => if truthyJ v then some v else none
    | none => none

/-- Collect the elements of a joined sequence, requiring every one to
be a string (otherwise Python `str.join` raises `TypeError`). -/
def strsOfJ : List JVal → Option (List String)
  | [] => some []
  | .str s :: rest =>
    match strsOfJ rest with
    | some l => some (s :: l)
    | none => none
  | _ :: _ => none

/-- `", ".join(vals)`: raises `TypeError` when some element is not a
string. -/
def pyJoinComma (vals : List JVal) : Except PyErr String :=
  match strsOfJ vals with
  | some strs => .ok (String.intercalate ", " strs)
  | none => .error (.typeError "sequence item expected str instance")

/-- `GeminiClient.classify_expense_category` (lines 213–309).
`hasCreds` models the credential guard of line 224; `callRes` is the
outcome of the outbound call (SDK or REST — both return the raw answer
text on success and make the function return `"Utility"` on an
exception).  The boolean in the result records whether a network
request was issued. -/
def classify_expense_category (hasCreds : Bool)
    (items : List (List (String × JVal))) (callRes : Except CallErr String) :
    Except PyErr (String × Bool) :=
  if ¬ hasCreds ∨ items.isEmpty then .ok ("Utility", false)
  else
    match pyJoinComma (nomesOf items) with
    | .error e => .error e
    | .ok itemsText =>
      if (pyStrip itemsText).isEmpty then .ok ("Utility", false)
      else
        match callRes with
        | .error _ => .ok ("Utility", true)
        | .ok category => .ok (String.mk (codeValidateCat category.toList), true)

/-! ## `main.py` — the FastAPI pipeline `analisar_cupom`

`main.py` imports `save_uploaded_file` from `services/file_handler.py`
(which writes unconditionally) and `parse_llm_response` from
`services/parser.py`.  The latter file is not present in the sources;
the parse stage receives the *dictionary* `analyze_receipt_image`
returned, on which the parser of `app/services/parser.py` immediately
hits `AttributeError` in `response.strip` and falls into its generic
`except Exception` branch, returning a failure dictionary without
raising.  Either way the stage's behaviour is irrelevant to the
file-cleanup claim: the route's `try` has no `finally` and no deletion
call on any path. -/

/-- The failure dictionary that `parse_llm_response` produces when
handed the provider-response dictionary: `.strip` on a dict raises
`AttributeError`, the generic handler returns
`{"success": False, "error": "Erro ao processar resposta: ...",
"raw_response": response}`. -/
structure DictParseResult where
  success : Bool
  error : String

/-- The parse stage of `main.py` applied to the provider dictionary. -/
def parse_llm_response_on_dict (_payload : String) : DictParseResult :=
  ⟨false, "Erro ao processar resposta: str object has no attribute strip"⟩

/-- `analisar_cupom` (`main.py` lines 13–26) over an explicit
filesystem state.  The upload is written first
(`services/file_handler.py` has no validation), then the vision call
runs (outcome `llm`), then the parse stage; any exception is caught by
the bare `except` and turned into a 500 response.  No path deletes the
stored file. -/
def analisar_cupom (fs : List String) (filename : String)
    (llm : Except PyErr String) : Nat × List String :=
  let path := "uploads/" ++ filename
  let fs1 := fs ++ [path]
  match llm with
  | .error _ => (500, fs1)
  | .ok payload =>
    let _structured := parse_llm_response_on_dict payload
    (200, fs1)

/-! ## Derived definitions used to state the claims -/

/-- Markdown-fence wrapping of a completion text:
`` ```json\n{...}\n``` ``. -/
def wrapMd (X : String) : String := "```json\n" ++ X ++ "\n```"

/-- The extension of a filename in the claim's sense: the part after
the last dot, or `none` when the filename contains no dot. -/
def extOf (filename : String) : Option String :=
  if '.' ∈ filename.toList then some (String.mk (afterLastDot filename.toList))
  else none

/-- The items kept by the normalizer's loop: those raw items (all
dictionaries) whose three numeric coercions succeed. -/
def keptItems (elems : List JVal) : List LineItem :=
  elems.filterMap fun e =>
    match e with
    | .obj ik => itemStep ik
    | _ => none

/-- The sum of the kept items' coerced totals. -/
def sumTotals (lis : List LineItem) : ℚ :=
  (lis.map LineItem.valor_total).sum

/-- Well-formedness of an item's `nome` field against the declared
schema (`LineItem.name : string`): a truthy `nome` must be a string.
This is the classifier's input type per the spec's data model; the
`", ".join` of line 228 requires it. -/
def nomeWF (it : List (String × JVal)) : Prop :=
  ∀ v, lookupLast it "nome" = some v → truthyJ v = true → ∃ s, v = .str s

/-! ## Claims -/

/-- C1, counterexample.  The claim says that on every failure of a
pipeline stage after file intake the stored upload file is deleted
before the error surfaces.  At the concrete run below (empty
filesystem, upload `r.jpg`, vision stage failing with a timeout) the
pipeline surfaces a 500 response while the stored file
`uploads/r.jpg` is still present in the final filesystem, so the claim
is false: no exit path of `analisar_cupom` (and none of
`AnalyzeCoupon.post`) ever calls a delete. -/
theorem c1_cleanup_counterexample :
    (analisar_cupom [] "r.jpg" (.error (.valueError "Timeout"))).1 = 500 ∧
    "uploads/r.jpg" ∈ (analisar_cupom [] "r.jpg" (.error (.valueError "Timeout"))).2 := by
  exact ⟨rfl, by simp [analisar_cupom]⟩

/-- C1, amended.  On a failure of a pipeline stage after intake the
error is caught and surfaced as a 500 response, but the stored upload
file is retained — the final filesystem always contains the written
path, on every exit path. -/
theorem c1_file_retained_on_failure (fs : List String) (filename : String)
    (llm : Except PyErr String) (e : PyErr) (h : llm = .error e) :
    (analisar_cupom fs filename llm).1 = 500 ∧
    (analisar_cupom fs filename llm).2 = fs ++ ["uploads/" ++ filename] ∧
    ("uploads/" ++ filename) ∈ (analisar_cupom fs filename llm).2 := by
  subst h
  refine ⟨rfl, rfl, ?_⟩
  simp [analisar_cupom]

/-- C1, witness for the amended theorem at a concrete failing run. -/
theorem c1_file_retained_witness :
    (analisar_cupom [] "a.png" (.error (.valueError "boom"))).1 = 500 ∧
    (analisar_cupom [] "a.png" (.error (.valueError "boom"))).2 = [] ++ ["uploads/" ++ "a.png"] ∧
    ("uploads/" ++ "a.png") ∈ (analisar_cupom [] "a.png" (.error (.valueError "boom"))).2 :=
  c1_file_retained_on_failure [] "a.png" _ (.valueError "boom") rfl

/-- C2.  The claim says that for every completion text that is not
valid JSON after cleanup, parse returns an `InvalidJson` failure
carrying the raw text, and never raises past the parse boundary.  The
code intends this (`except json.JSONDecodeError: return {...}`), but
the handler reads the raw text with `response.get("choices", ...)` —
a dict access on what is a string — so at the failing input below
(the spec's own malformed-JSON shape with an unquoted key) the
function raises `AttributeError` instead of returning the failure
dictionary.  The claim matches the code's evident intent and its
docstring (`Returns: dict`), so this is a code bug. -/
theorem c2_parse_raises_on_invalid_json :
    parse_llm_response "\x7bloja: 1\x7d" =
      .error (.attributeError "str object has no attribute get") := by
  rfl

/-- C6, counterexample.  The claim says an absent or null `categoria`
normalizes to null (deferred to the classifier).  On the concrete
parsed receipt `{}` (no `categoria` key) the normalizer instead
produces the string `"Não Classificado"`. -/
theorem c6_categoria_counterexample :
    validate_receipt_data (.obj []) =
      .ok ⟨.str "Não identificado", .null, [], 0, .str "Não identificado",
           .str "Não Classificado", .str ""⟩ ∧
    JVal.str "Não Classificado" ≠ JVal.null := by
  exact ⟨rfl, fun h => JVal.noConfusion h⟩

/-- C6, amended.  For every parsed receipt whose `categoria` field is
absent or null, the normalizer's output has `categoria` equal to the
string `"Não Classificado"` (not null): line 65 is
`data.get("categoria") or "Não Classificado"`. -/
theorem c6_categoria_default (kvs : List (String × JVal)) (v : ValidatedReceipt)
    (hcat : lookupLast kvs "categoria" = none ∨ lookupLast kvs "categoria" = some .null)
    (hok : validate_receipt_data (.obj kvs) = .ok v) :
    v.categoria = .str "Não Classificado" := by
  have hget : getOrDefault kvs "categoria" (.str "Não Classificado") = .str "Não Classificado" := by
    rcases hcat with h | h <;> simp [getOrDefault, h, truthyJ]
  simp only [validate_receipt_data] at hok
  split at hok
  · exact absurd hok (by simp)
  · split at hok
    · exact absurd hok (by simp)
    · rw [Except.ok.injEq] at hok
      rw [← hok]
      exact hget

/-- C6, witness for the amended theorem at the empty parsed receipt. -/
theorem c6_categoria_default_witness :
    (lookupLast [] "categoria" = none ∨ lookupLast [] "categoria" = some .null) ∧
    (⟨.str "Não identificado", .null, [], 0, .str "Não identificado",
      .str "Não Classificado", .str ""⟩ : ValidatedReceipt).categoria =
      .str "Não Classificado" :=
  ⟨Or.inl rfl,
   c6_categoria_default [] _ (Or.inl rfl) rfl⟩

/-- The error state of the item loop is absorbing. -/
theorem foldl_iterBody_error (elems : List JVal) (err : PyErr) :
    elems.foldl iterBody (.error err) = .error err := by
  induction elems with
  | nil => rfl
  | cons e rest ih => simpa [iterBody] using ih

/-- A successful run of the item loop decomposes as the incoming
accumulator followed by a tail of freshly kept items, with the running
total advanced by the tail's summed totals. -/
theorem foldl_iterBody_ok_decomp (elems : List JVal) :
    ∀ acc t res, elems.foldl iterBody (.ok (acc, t)) = .ok res →
      ∃ tail, res.1 = acc ++ tail ∧ res.2 = t + sumTotals tail := by
  induction elems with
  | nil =>
    intro acc t res h
    simp only [List.foldl_nil, Except.ok.injEq] at h
    exact ⟨[], by simp [← h, sumTotals]⟩
  | cons e rest ih =>
    intro acc t res h
    rw [List.foldl_cons] at h
    match e with
    | .null | .bool _ | .num _ | .str _ | .arr _ =>
      simp only [iterBody] at h
      rw [foldl_iterBody_error] at h
      exact absurd h (by simp)
    | .obj ikvs =>
      cases hstep : itemStep ikvs with
      | some li =>
        simp only [iterBody, hstep] at h
        obtain ⟨tail, h1, h2⟩ := ih (acc ++ [li]) (t + li.valor_total) res h
        refine ⟨li :: tail, ?_, ?_⟩
        · rw [h1, List.append_assoc]
          rfl
        · rw [h2]
          have : sumTotals (li :: tail) = li.valor_total + sumTotals tail := by
            simp [sumTotals]
          rw [this, add_assoc]
      | none =>
        simp only [iterBody, hstep] at h
        exact ih acc t res h

/-- When every raw item is a dictionary, the item loop succeeds and
keeps exactly the items whose coercions succeed, summing their
totals. -/
theorem foldl_iterBody_all_obj (elems : List JVal) :
    (∀ e ∈ elems, ∃ ik, e = .obj ik) →
    ∀ acc t, elems.foldl iterBody (.ok (acc, t)) =
      .ok (acc ++ keptItems elems, t + sumTotals (keptItems elems)) := by
  induction elems with
  | nil =>
    intro _ acc t
    simp [keptItems, sumTotals]
  | cons e rest ih =>
    intro hobj acc t
    obtain ⟨ik, rfl⟩ := hobj e (by simp)
    have hrest : ∀ e2 ∈ rest, ∃ ik2, e2 = JVal.obj ik2 := fun e2 he2 => hobj e2 (by simp [he2])
    rw [List.foldl_cons]
    cases hstep : itemStep ik with
    | some li =>
      simp only [iterBody, hstep]
      rw [ih hrest]
      have hk : keptItems (JVal.obj ik :: rest) = li :: keptItems rest := by
        simp [keptItems, hstep]
      have hs : sumTotals (li :: keptItems rest) =
          li.valor_total + sumTotals (keptItems rest) := by
        simp [sumTotals]
      rw [hk, hs]
      rw [List.append_assoc, add_assoc]
      rfl
    | none =>
      simp only [iterBody, hstep]
      rw [ih hrest]
      have hk : keptItems (JVal.obj ik :: rest) = keptItems rest := by
        simp [keptItems, hstep]
      rw [hk]

/-- A successful item iteration returns a total equal to the sum of
the kept items' totals. -/
theorem iterItems_ok_sum (x : JVal) (lis : List LineItem) (tot : ℚ)
    (h : iterItems x = .ok (lis, tot)) : tot = sumTotals lis := by
  match x with
  | .arr elems =>
    simp only [iterItems, iterLoop] at h
    obtain ⟨tail, h1, h2⟩ := foldl_iterBody_ok_decomp elems [] 0 (lis, tot) h
    simp only at h1 h2
    rw [h2, h1]
    simp
  | .str s =>
    simp only [iterItems] at h
    split at h
    · simp only [Except.ok.injEq, Prod.mk.injEq] at h
      rw [← h.2, ← h.1]
      simp [sumTotals]
    · exact absurd h (by simp)
  | .obj kvs =>
    simp only [iterItems] at h
    split at h
    · simp only [Except.ok.injEq, Prod.mk.injEq] at h
      rw [← h.2, ← h.1]
      simp [sumTotals]
    · exact absurd h (by simp)
  | .null | .bool _ | .num _ => exact absurd h (by simp [iterItems])

/-- C4, counterexample.  The claim says `totalAmount` is the
provider-supplied `valor_total` whenever that value is numerically
valid.  The value `0.0` is numerically valid, but on the concrete
receipt below (provider total `0.0`, one item of `80.0`) line 88's
`data.get("valor_total", total) or total` discards the falsy `0.0`
and the result is the item sum `80.0`, not `0.0`. -/
theorem c4_total_counterexample :
    validate_receipt_data (.obj [("valor_total", .num 0),
        ("itens", .arr [.obj [("valor_total", .num 80)]])]) =
      .ok ⟨.str "Não identificado", .null, [⟨.str "Item desconhecido", 1, 80, 80⟩], 80,
           .str "Não identificado", .str "Não Classificado", .str ""⟩ ∧
    truthyJ (JVal.num 0) = false ∧ pyFloat (JVal.num 0) = .ok 0 ∧ (80 : ℚ) ≠ 0 := by
  refine ⟨by with_unfolding_all rfl, rfl, rfl, by norm_num⟩

/-- A successful normalization of a dictionary receipt is determined
by a successful item iteration and a successful final total coercion,
with all the other fields given by the `or`-defaults. -/
theorem validate_obj_ok (kvs : List (String × JVal)) (v : ValidatedReceipt)
    (hok : validate_receipt_data (.obj kvs) = .ok v) :
    ∃ itens total q,
      iterItems (pyGetD kvs "itens" (.arr [])) = .ok (itens, total) ∧
      pyFloat (if truthyJ (pyGetD kvs "valor_total" (.num total))
               then pyGetD kvs "valor_total" (.num total) else .num total) = .ok q ∧
      v = ⟨getOrDefault kvs "loja" (.str "Não identificado"),
           getOrDefault kvs "data_compra" .null, itens, q,
           getOrDefault kvs "forma_pagamento" (.str "Não identificado"),
           getOrDefault kvs "categoria" (.str "Não Classificado"),
           getOrDefault kvs "texto_bruto" (.str "")⟩ := by
  simp only [validate_receipt_data] at hok
  split at hok
  · exact absurd hok (by simp)
  · next itens total heq =>
    split at hok
    · exact absurd hok (by simp)
    · next q hq =>
      rw [Except.ok.injEq] at hok
      exact ⟨itens, total, q, heq, hq, hok.symm⟩

/-- C4, amended.  Line 88 resolves `totalAmount` as
`float(data.get("valor_total", total) or total)`: the provider value
wins only when it is present and *truthy*; when it is absent — or
falsy, including the numerically valid `0.0` — the sum of the kept
items' totals is used instead.  (A truthy uncoercible provider value
raises instead, which is why a successful normalization is assumed.) -/
theorem c4_total_resolution (kvs : List (String × JVal)) (v : ValidatedReceipt)
    (hok : validate_receipt_data (.obj kvs) = .ok v) :
    (∀ x qq, lookupLast kvs "valor_total" = some x → truthyJ x = true →
        pyFloat x = .ok qq → v.valor_total = qq) ∧
    ((lookupLast kvs "valor_total" = none ∨
        (∃ x, lookupLast kvs "valor_total" = some x ∧ truthyJ x = false)) →
      v.valor_total = sumTotals v.itens) := by
  obtain ⟨itens, total, q, hiter, hfloat, rfl⟩ := validate_obj_ok kvs v hok
  constructor
  · intro x qq hx htr hf
    rw [show pyGetD kvs "valor_total" (.num total) = x from by simp [pyGetD, hx]] at hfloat
    rw [if_pos htr] at hfloat
    rw [hf] at hfloat
    rw [Except.ok.injEq] at hfloat
    exact hfloat.symm
  · intro hcase
    have hnum : pyFloat (JVal.num total) = .ok q := by
      rcases hcase with hnone | ⟨x, hx, hfx⟩
      · rw [show pyGetD kvs "valor_total" (.num total) = .num total from
            by simp [pyGetD, hnone]] at hfloat
        rwa [ite_self] at hfloat
      · rw [show pyGetD kvs "valor_total" (.num total) = x from by simp [pyGetD, hx]] at hfloat
        rwa [if_neg (by simp [hfx])] at hfloat
    simp only [pyFloat, Except.ok.injEq] at hnum
    have hsum : total = sumTotals itens := iterItems_ok_sum _ _ _ hiter
    show q = sumTotals itens
    rw [← hnum, hsum]

/-- C4, witness for the amended theorem: the spec's own precedence
example — provider total `100.0` and items summing to `80.0` — yields
`totalAmount = 100.0` (truthy provider value wins), and the falsy-side
clause applies to a receipt with no provider total. -/
theorem c4_total_resolution_witness :
    (⟨.str "Não identificado", .null, [⟨.str "Item desconhecido", 1, 80, 80⟩], 100,
      .str "Não identificado", .str "Não Classificado", .str ""⟩ :
        ValidatedReceipt).valor_total = 100 :=
  (c4_total_resolution
      [("valor_total", .num 100), ("itens", .arr [.obj [("valor_total", .num 80)]])]
      _ (by with_unfolding_all rfl)).1
    (.num 100) 100 rfl (by with_unfolding_all rfl) rfl

/-- C5, counterexample.  The claim says that on a mixed item list the
normalizer keeps exactly the items with numerically coercible
*totals*.  On the receipt below, the first item's total `10.0` is
coercible (second conjunct) — the claim demands it be kept — but its
`quantidade` is not, so line 78's `int(item.get("quantidade", 1))`
raises inside the same `try` and the whole item is dropped: the kept
list is empty. -/
theorem c5_drop_counterexample :
    validate_receipt_data (.obj [("itens", .arr
        [.obj [("valor_total", .num 10), ("quantidade", .str "x")],
         .obj [("valor_total", .str "n/a")]])]) =
      .ok ⟨.str "Não identificado", .null, [], 0, .str "Não identificado",
           .str "Não Classificado", .str ""⟩ ∧
    pyFloat (JVal.num 10) = .ok 10 := by
  exact ⟨by with_unfolding_all rfl, rfl⟩

/-- C5, amended.  For every parsed receipt (a dictionary) whose
`itens` value is a list of dictionaries and whose receipt-level
`valor_total` is absent, normalization raises no exception, keeps
exactly the items all of whose numeric coercions (total, quantity,
unit price) succeed, silently drops the rest, and computes the
receipt total as the sum of the kept items' totals only. -/
theorem c5_drop_semantics (kvs : List (String × JVal)) (elems : List JVal)
    (hitens : lookupLast kvs "itens" = some (.arr elems))
    (hobj : ∀ e ∈ elems, ∃ ik, e = .obj ik)
    (hvt : lookupLast kvs "valor_total" = none) :
    validate_receipt_data (.obj kvs) =
      .ok ⟨getOrDefault kvs "loja" (.str "Não identificado"),
           getOrDefault kvs "data_compra" .null,
           keptItems elems, sumTotals (keptItems elems),
           getOrDefault kvs "forma_pagamento" (.str "Não identificado"),
           getOrDefault kvs "categoria" (.str "Não Classificado"),
           getOrDefault kvs "texto_bruto" (.str "")⟩ := by
  have h1 : pyGetD kvs "itens" (.arr []) = .arr elems := by simp [pyGetD, hitens]
  have hloop : iterItems (.arr elems) =
      .ok (keptItems elems, sumTotals (keptItems elems)) := by
    simp only [iterItems, iterLoop]
    rw [foldl_iterBody_all_obj elems hobj [] 0, List.nil_append, zero_add]
  have h2 : ∀ q : ℚ, pyGetD kvs "valor_total" (.num q) = .num q := by
    intro q
    simp [pyGetD, hvt]
  simp only [validate_receipt_data, h1, hloop, h2, ite_self, pyFloat]

/-- C5, witness for the amended theorem: the spec's dropped-item
resilience example — one item with `valor_total: "n/a"`, one valid
item of `10.0` — keeps exactly the valid line item and totals `10.0`,
with no exception. -/
theorem c5_drop_semantics_witness :
    validate_receipt_data (.obj [("itens", .arr
        [.obj [("valor_total", .num 10)], .obj [("valor_total", .str "n/a")]])]) =
      .ok ⟨getOrDefault [("itens", .arr
              [.obj [("valor_total", .num 10)], .obj [("valor_total", .str "n/a")]])]
             "loja" (.str "Não identificado"),
           getOrDefault [("itens", .arr
              [.obj [("valor_total", .num 10)], .obj [("valor_total", .str "n/a")]])]
             "data_compra" .null,
           keptItems [.obj [("valor_total", .num 10)], .obj [("valor_total", .str "n/a")]],
           sumTotals (keptItems
             [.obj [("valor_total", .num 10)], .obj [("valor_total", .str "n/a")]]),
           getOrDefault [("itens", .arr
              [.obj [("valor_total", .num 10)], .obj [("valor_total", .str "n/a")]])]
             "forma_pagamento" (.str "Não identificado"),
           getOrDefault [("itens", .arr
              [.obj [("valor_total", .num 10)], .obj [("valor_total", .str "n/a")]])]
             "categoria" (.str "Não Classificado"),
           getOrDefault [("itens", .arr
              [.obj [("valor_total", .num 10)], .obj [("valor_total", .str "n/a")]])]
             "texto_bruto" (.str "")⟩ ∧
    keptItems [.obj [("valor_total", .num 10)], .obj [("valor_total", .str "n/a")]] =
      [⟨.str "Item desconhecido", 1, 10, 10⟩] ∧
    sumTotals [⟨JVal.str "Item desconhecido", 1, 10, 10⟩] = 10 :=
  ⟨c5_drop_semantics _ _ rfl
      (by
        intro e he
        simp only [List.mem_cons, List.not_mem_nil, or_false] at he
        rcases he with rfl | rfl
        · exact ⟨_, rfl⟩
        · exact ⟨_, rfl⟩)
      rfl,
   by with_unfolding_all rfl,
   by with_unfolding_all rfl⟩

/-- A list is a prefix of itself followed by anything. -/
theorem isPref_append_self (p t : List Char) : isPref p (p ++ t) = true := by
  induction p with
  | nil => rfl
  | cons c ps ih => simp [isPref, ih]

/-- Prefixhood is preserved by appending on the right. -/
theorem isPref_append_of (p : List Char) :
    ∀ l t, isPref p l = true → isPref p (l ++ t) = true := by
  induction p with
  | nil => intro l t _; rfl
  | cons c ps ih =>
    intro l t h
    match l with
    | [] => exact absurd h (by simp [isPref])
    | d :: l2 =>
      simp only [isPref, Bool.and_eq_true] at h
      simp [isPref, h.1, ih l2 t h.2]

/-- The empty pattern occurs in every list. -/
theorem isSubstr_nil_left (l : List Char) : isSubstr [] l = true := by
  cases l <;> simp [isSubstr, isPref]

/-- Occurrence is preserved by appending on the right. -/
theorem isSubstr_append_of (p : List Char) :
    ∀ l t, isSubstr p l = true → isSubstr p (l ++ t) = true := by
  intro l
  induction l with
  | nil =>
    intro t h
    have hp : p = [] := by
      cases p with
      | nil => rfl
      | cons c ps => exact absurd h (by simp [isSubstr, isPref])
    subst hp
    simpa using isSubstr_nil_left t
  | cons c l2 ih =>
    intro t h
    cases p with
    | nil => simpa using isSubstr_nil_left ((c :: l2) ++ t)
    | cons d ps =>
      simp only [isSubstr, Bool.or_eq_true, List.cons_append] at h ⊢
      rcases h with h | h
      · left
        have := isPref_append_of (d :: ps) (c :: l2) t h
        simpa using this
      · right
        exact ih t h

/-- `replaceAllF` leaves a list without occurrences unchanged. -/
theorem replaceAllF_no_occ (pat : List Char) :
    ∀ f l, isSubstr pat l = false → replaceAllF pat f l = l := by
  intro f
  induction f with
  | zero =>
    intro l _
    cases l <;> rfl
  | succ f ih =>
    intro l h
    match l with
    | [] => rfl
    | c :: rest =>
      simp only [isSubstr, Bool.or_eq_false_iff] at h
      rw [replaceAllF, if_neg (by simp [h.1]), ih rest h.2]

/-- `replace(pat, "")` leaves a list without occurrences unchanged. -/
theorem replaceAll_no_occ (pat l : List Char) (h : isSubstr pat l = false) :
    replaceAll pat l = l :=
  replaceAllF_no_occ pat l.length l h

/-- Deleting a non-empty pattern standing at the head of a list whose
remainder has no further occurrence yields exactly the remainder. -/
theorem replaceAll_head (c : Char) (ps m : List Char)
    (hno : isSubstr (c :: ps) m = false) :
    replaceAll (c :: ps) ((c :: ps) ++ m) = m := by
  unfold replaceAll
  have hlen : ((c :: ps) ++ m).length = (ps ++ m).length + 1 := by simp
  rw [hlen]
  show replaceAllF (c :: ps) ((ps ++ m).length + 1) (c :: (ps ++ m)) = m
  rw [replaceAllF, if_pos ⟨List.cons_ne_nil c ps,
    by
      have := isPref_append_self (c :: ps) m
      simpa using this⟩]
  have hdrop : (c :: (ps ++ m)).drop (c :: ps).length = m := by
    have : c :: (ps ++ m) = (c :: ps) ++ m := by simp
    rw [this]
    exact List.drop_left _ _
  rw [hdrop]
  exact replaceAllF_no_occ _ _ _ hno

/-- `dropWhile` is the identity when the head does not satisfy the
predicate. -/
theorem dropWhile_eq_self_of_head (p : Char → Bool) (l : List Char)
    (h : ∀ c, l.head? = some c → p c = false) : l.dropWhile p = l := by
  cases l with
  | nil => rfl
  | cons c t => simp [List.dropWhile_cons, h c rfl]

/-- `strip(chars)` is the identity when neither end matches. -/
theorem trimBothB_eq_self (p : Char → Bool) (l : List Char)
    (h1 : ∀ c, l.head? = some c → p c = false)
    (h2 : ∀ c, l.getLast? = some c → p c = false) : trimBothB p l = l := by
  unfold trimBothB
  rw [dropWhile_eq_self_of_head p l h1]
  rw [dropWhile_eq_self_of_head p l.reverse (by
    intro c hc
    rw [List.head?_reverse] at hc
    exact h2 c hc)]
  exact List.reverse_reverse l

/-- Stripping backticks from the markdown-wrapped completion leaves the
`json` tag, the payload and the fence's newline. -/
theorem trimTicks_wrap (X : List Char) :
    trimBothB (fun c => c = tickChar)
      ([tickChar, tickChar, tickChar] ++ (jsonTagL ++ (X ++ fenceL))) =
      jsonTagL ++ (X ++ ['\n']) := by
  unfold trimBothB fenceL jsonTagL
  have t1 : (decide (tickChar = tickChar)) = true := by decide
  have t2 : (decide ('j' = tickChar)) = false := by decide
  have t3 : (decide ('\n' = tickChar)) = false := by decide
  have hleft : List.dropWhile (fun c => decide (c = tickChar))
      ([tickChar, tickChar, tickChar] ++
        (['j', 's', 'o', 'n', '\n'] ++ (X ++ ['\n', tickChar, tickChar, tickChar]))) =
      'j' :: 's' :: 'o' :: 'n' :: '\n' :: (X ++ ['\n', tickChar, tickChar, tickChar]) := by
    simp only [List.cons_append, List.nil_append, List.dropWhile_cons, t1, t2]
    simp
  rw [hleft]
  have hrev : ('j' :: 's' :: 'o' :: 'n' :: '\n' ::
      (X ++ ['\n', tickChar, tickChar, tickChar])).reverse =
      tickChar :: tickChar :: tickChar :: '\n' ::
        (X.reverse ++ ['\n', 'n', 'o', 's', 'j']) := by
    simp
  rw [hrev]
  have hdrop : List.dropWhile (fun c => decide (c = tickChar))
      (tickChar :: tickChar :: tickChar :: '\n' ::
        (X.reverse ++ ['\n', 'n', 'o', 's', 'j'])) =
      '\n' :: (X.reverse ++ ['\n', 'n', 'o', 's', 'j']) := by
    simp only [List.dropWhile_cons, t1, t3]
    simp
  rw [hdrop]
  simp

/-- The character list of the markdown wrapping. -/
theorem wrapMd_toList (X : String) :
    (wrapMd X).toList =
      [tickChar, tickChar, tickChar] ++ (jsonTagL ++ (X.toList ++ fenceL)) := by
  have h1 : ("```json\n" : String).data = [tickChar, tickChar, tickChar] ++ jsonTagL := by
    with_unfolding_all rfl
  have h2 : ("\n```" : String).data = fenceL := by with_unfolding_all rfl
  unfold wrapMd
  show (("```json\n" ++ X) ++ "\n```").data = _
  rw [String.data_append, String.data_append, h1, h2]
  show ([tickChar, tickChar, tickChar] ++ jsonTagL) ++ X.data ++ fenceL = _
  simp [String.toList, List.append_assoc]

/-- The cleanup turns the wrapped completion into the payload followed
by one newline, provided the payload (with that newline) contains
neither deletion pattern. -/
theorem cleanupL_wrap (X : List Char)
    (htag : isSubstr jsonTagL (X ++ ['\n']) = false)
    (hfence : isSubstr fenceL (X ++ ['\n']) = false) :
    cleanupL ([tickChar, tickChar, tickChar] ++ (jsonTagL ++ (X ++ fenceL))) =
      X ++ ['\n'] := by
  unfold cleanupL
  rw [trimTicks_wrap]
  have h1 : replaceAll jsonTagL (jsonTagL ++ (X ++ ['\n'])) = X ++ ['\n'] := by
    have : jsonTagL = 'j' :: ['s', 'o', 'n', '\n'] := rfl
    rw [this]
    exact replaceAll_head _ _ _ (by rw [← this]; exact htag)
  rw [h1]
  exact replaceAll_no_occ _ _ hfence

/-- The cleanup is the identity on a text with no backtick at either
end and no occurrence of either deletion pattern. -/
theorem cleanupL_id (X : List Char)
    (hhead : ∀ c, X.head? = some c → c ≠ tickChar)
    (hlast : ∀ c, X.getLast? = some c → c ≠ tickChar)
    (htag : isSubstr jsonTagL X = false)
    (hfence : isSubstr fenceL X = false) :
    cleanupL X = X := by
  unfold cleanupL
  rw [trimBothB_eq_self _ X (fun c hc => decide_eq_false (hhead c hc))
    (fun c hc => decide_eq_false (hlast c hc))]
  rw [replaceAll_no_occ _ _ htag, replaceAll_no_occ _ _ hfence]

/-- Trailing JSON whitespace trimming absorbs an appended newline. -/
theorem trimTrailB_append_newline (l : List Char) :
    trimTrailB isJWs (l ++ ['\n']) = trimTrailB isJWs l := by
  unfold trimTrailB
  rw [List.reverse_append]
  have h1 : isJWs '\n' = true := by decide
  have h2 : (['\n'] : List Char).reverse = ['\n'] := rfl
  rw [h2]
  simp only [List.cons_append, List.nil_append, List.dropWhile_cons, h1, if_true]

/-- `json.loads` ignores an appended trailing newline. -/
theorem jsonLoadsL_append_newline (l : List Char) :
    jsonLoadsL (l ++ ['\n']) = jsonLoadsL l := by
  unfold jsonLoadsL
  rw [trimTrailB_append_newline]

/-- C3, counterexample.  The claim says `parse(wrap(X)) == parse(X)`
for every valid JSON object X.  At `X = "{}"` both parses succeed and
decode the same object, but the full results differ: the cleanup of
the wrapped form leaves the fence's newline in the content, so
`raw_response` is `"{}\n"` against `"{}"`. -/
theorem c3_wrap_counterexample :
    parse_llm_response (wrapMd "\x7b\x7d") =
      .ok ⟨true, some (.obj []), "\x7b\x7d\n"⟩ ∧
    parse_llm_response "\x7b\x7d" = .ok ⟨true, some (.obj []), "\x7b\x7d"⟩ ∧
    parse_llm_response (wrapMd "\x7b\x7d") ≠ parse_llm_response "\x7b\x7d" := by
  have e1 : parse_llm_response (wrapMd "\x7b\x7d") =
      .ok ⟨true, some (.obj []), "\x7b\x7d\n"⟩ := by with_unfolding_all rfl
  have e2 : parse_llm_response "\x7b\x7d" = .ok ⟨true, some (.obj []), "\x7b\x7d"⟩ := by
    with_unfolding_all rfl
  refine ⟨e1, e2, fun h => ?_⟩
  rw [e1, e2, Except.ok.injEq] at h
  have := congrArg PResult.raw_response h
  exact absurd this (by decide)

/-- C3, amended.  For every completion text X that decodes as JSON
(in particular every valid JSON object text: such a text cannot start
or end with a backtick and cannot contain `"json\n"` or `` "\n```" ``
as a substring, since strict JSON forbids raw control characters in
strings and no token ends in those shapes), `parse(wrap(X))` and
`parse(X)` both succeed with the *same decoded data*; the only
difference is the trailing newline kept in the wrapped form's
`raw_response`. -/
theorem c3_wrap_data_equal (X : String) (v : JVal)
    (hjson : jsonLoads X = some v)
    (hhead : ∀ c, X.toList.head? = some c → c ≠ tickChar)
    (hlast : ∀ c, X.toList.getLast? = some c → c ≠ tickChar)
    (htag : isSubstr jsonTagL (X.toList ++ ['\n']) = false)
    (hfence : isSubstr fenceL (X.toList ++ ['\n']) = false) :
    parse_llm_response (wrapMd X) = .ok ⟨true, some v, X ++ "\n"⟩ ∧
    parse_llm_response X = .ok ⟨true, some v, X⟩ := by
  have htag2 : isSubstr jsonTagL X.toList = false := by
    cases h : isSubstr jsonTagL X.toList
    · rfl
    · rw [isSubstr_append_of jsonTagL X.toList ['\n'] h] at htag
      exact absurd htag (by simp)
  have hfence2 : isSubstr fenceL X.toList = false := by
    cases h : isSubstr fenceL X.toList
    · rfl
    · rw [isSubstr_append_of fenceL X.toList ['\n'] h] at hfence
      exact absurd hfence (by simp)
  have hcw : cleanup (wrapMd X) = X ++ "\n" := by
    unfold cleanup
    rw [show (wrapMd X).toList =
        [tickChar, tickChar, tickChar] ++ (jsonTagL ++ (X.toList ++ fenceL)) from
      wrapMd_toList X]
    rw [cleanupL_wrap X.toList htag hfence]
    apply String.ext
    show X.toList ++ ['\n'] = (X ++ "\n").data
    rw [String.data_append]
    rfl
  have hci : cleanup X = X := by
    unfold cleanup
    rw [cleanupL_id X.toList hhead hlast htag2 hfence2]
    rfl
  have hjw : jsonLoads (X ++ "\n") = some v := by
    unfold jsonLoads
    show jsonLoadsL ((X ++ "\n").data) = some v
    rw [String.data_append]
    show jsonLoadsL (X.toList ++ "\n".toList) = some v
    rw [show ("\n" : String).toList = ['\n'] from rfl]
    rw [jsonLoadsL_append_newline]
    exact hjson
  constructor
  · simp only [parse_llm_response]
    rw [hcw, hjw]
  · simp only [parse_llm_response]
    rw [hci, hjson]

/-- C3, witness for the amended theorem at the object text `"{}"`. -/
theorem c3_wrap_data_equal_witness :
    jsonLoads "\x7b\x7d" = some (.obj []) ∧
    parse_llm_response (wrapMd "\x7b\x7d") =
      .ok ⟨true, some (.obj []), "\x7b\x7d" ++ "\n"⟩ ∧
    parse_llm_response "\x7b\x7d" = .ok ⟨true, some (.obj []), "\x7b\x7d"⟩ := by
  have hhead : ∀ c, ("\x7b\x7d" : String).toList.head? = some c → c ≠ tickChar := by
    intro c hc
    rw [show ("\x7b\x7d" : String).toList.head? = some '\x7b' from rfl,
      Option.some.injEq] at hc
    subst hc
    decide
  have hlast : ∀ c, ("\x7b\x7d" : String).toList.getLast? = some c → c ≠ tickChar := by
    intro c hc
    rw [show ("\x7b\x7d" : String).toList.getLast? = some '\x7d' from rfl,
      Option.some.injEq] at hc
    subst hc
    decide
  have h := c3_wrap_data_equal "\x7b\x7d" (.obj []) rfl hhead hlast
    (by with_unfolding_all rfl) (by with_unfolding_all rfl)
  exact ⟨rfl, h.1, h.2⟩

/-- A non-empty pattern whose characters all avoid `P` is not a prefix
of a list headed by a `P`-character. -/
theorem isPref_cons_false (P : Char → Bool) (y : List Char) (d : Char) (rest : List Char)
    (hy0 : y ≠ []) (hy : ∀ c ∈ y, P c = false) (hd : P d = true) :
    isPref y (d :: rest) = false := by
  match y with
  | [] => exact absurd rfl hy0
  | c :: ys =>
    have h1 : P c = false := hy c (by simp)
    have hne : (c == d) = false := by
      cases h : c == d
      · rfl
      · rw [eq_of_beq h, hd] at h1
        exact absurd h1 (by simp)
    simp [isPref, hne]

/-- A prefix of `z ++ b` avoiding `P` while `b` is all-`P` is already a
prefix of `z`. -/
theorem isPref_of_append_allP (P : Char → Bool) (y : List Char) :
    ∀ z b, isPref y (z ++ b) = true → (∀ c ∈ y, P c = false) →
      (∀ c ∈ b, P c = true) → isPref y z = true := by
  induction y with
  | nil => intro z b _ _ _; rfl
  | cons c ys ih =>
    intro z b h hy hb
    match z with
    | [] =>
      rw [List.nil_append] at h
      match b, hb, h with
      | [], _, h => exact absurd h (by simp [isPref])
      | d :: bs, hb, h =>
        rw [isPref_cons_false P (c :: ys) d bs (by simp) hy (hb d (by simp))] at h
        exact absurd h (by simp)
    | d :: zs =>
      simp only [List.cons_append, isPref, Bool.and_eq_true] at h ⊢
      exact ⟨h.1, ih zs b h.2 (fun x hx => hy x (by simp [hx])) hb⟩

/-- A non-empty `P`-avoiding pattern does not occur in an all-`P`
list. -/
theorem isSubstr_false_of_disjoint (P : Char → Bool) (y : List Char)
    (hy0 : y ≠ []) (hy : ∀ c ∈ y, P c = false) :
    ∀ b, (∀ c ∈ b, P c = true) → isSubstr y b = false := by
  intro b
  induction b with
  | nil =>
    intro _
    match y with
    | [] => exact absurd rfl hy0
    | c :: ys => rfl
  | cons d bs ih =>
    intro hb
    simp only [isSubstr]
    rw [isPref_cons_false P y d bs hy0 hy (hb d (by simp)),
      ih (fun c hc => hb c (by simp [hc]))]
    rfl

/-- An occurrence of a `P`-avoiding pattern survives stripping an
all-`P` front. -/
theorem isSubstr_strip_front (P : Char → Bool) (y : List Char)
    (hy0 : y ≠ []) (hy : ∀ c ∈ y, P c = false) :
    ∀ a z, (∀ c ∈ a, P c = true) → isSubstr y (a ++ z) = true →
      isSubstr y z = true := by
  intro a
  induction a with
  | nil =>
    intro z _ h
    simpa using h
  | cons d as ih =>
    intro z ha h
    simp only [List.cons_append, List.append_eq, isSubstr, Bool.or_eq_true] at h
    rcases h with h | h
    · rw [isPref_cons_false P y d (as ++ z) hy0 hy (ha d (by simp))] at h
      exact absurd h (by simp)
    · exact ih z (fun c hc => ha c (by simp [hc])) h

/-- An occurrence of a `P`-avoiding pattern survives stripping an
all-`P` back. -/
theorem isSubstr_strip_back (P : Char → Bool) (y : List Char)
    (hy0 : y ≠ []) (hy : ∀ c ∈ y, P c = false) :
    ∀ z b, (∀ c ∈ b, P c = true) → isSubstr y (z ++ b) = true →
      isSubstr y z = true := by
  intro z
  induction z with
  | nil =>
    intro b hb h
    rw [List.nil_append] at h
    rw [isSubstr_false_of_disjoint P y hy0 hy b hb] at h
    exact absurd h (by simp)
  | cons d zs ih =>
    intro b hb h
    simp only [List.cons_append, List.append_eq, isSubstr, Bool.or_eq_true] at h ⊢
    rcases h with h | h
    · left
      exact isPref_of_append_allP P y (d :: zs) b (by simpa using h) hy hb
    · right
      exact ih b hb h

/-- An occurrence of a `P`-avoiding pattern in `a ++ m ++ b` with
all-`P` flanks lies inside `m`. -/
theorem isSubstr_sandwich_inner (P : Char → Bool) (y a m b : List Char)
    (hy0 : y ≠ []) (hy : ∀ c ∈ y, P c = false)
    (ha : ∀ c ∈ a, P c = true) (hb : ∀ c ∈ b, P c = true)
    (h : isSubstr y (a ++ (m ++ b)) = true) : isSubstr y m = true :=
  isSubstr_strip_back P y hy0 hy m b hb
    (isSubstr_strip_front P y hy0 hy a (m ++ b) ha h)

/-- Every list occurs in itself inside any flanks. -/
theorem isSubstr_sandwich_self (p : List Char) :
    ∀ x y, isSubstr p (x ++ (p ++ y)) = true := by
  intro x
  induction x with
  | nil =>
    intro y
    rw [List.nil_append]
    match p with
    | [] => simpa using isSubstr_nil_left y
    | c :: ps =>
      simp only [List.cons_append, isSubstr, Bool.or_eq_true]
      left
      have := isPref_append_self (c :: ps) y
      simpa using this
  | cons d xs ih =>
    intro y
    have hrec := ih y
    match p, hrec with
    | [], _ => simpa using isSubstr_nil_left (d :: (xs ++ ([] ++ y)))
    | c :: ps, hrec =>
      simp only [List.cons_append, isSubstr, Bool.or_eq_true]
      right
      simpa using hrec

/-- Decomposition produced by a two-sided strip: the original list is
the trimmed core inside two flanks of stripped characters. -/
theorem trimBothB_decomp (p : Char → Bool) (l : List Char) :
    ∃ a b, l = a ++ (trimBothB p l ++ b) ∧
      (∀ c ∈ a, p c = true) ∧ (∀ c ∈ b, p c = true) := by
  refine ⟨l.takeWhile p, ((l.dropWhile p).reverse.takeWhile p).reverse, ?_, ?_, ?_⟩
  · have h1 : l = l.takeWhile p ++ l.dropWhile p :=
      (List.takeWhile_append_dropWhile p l).symm
    have h2 : l.dropWhile p =
        trimBothB p l ++ ((l.dropWhile p).reverse.takeWhile p).reverse := by
      have h3 : (l.dropWhile p).reverse =
          (l.dropWhile p).reverse.takeWhile p ++ (l.dropWhile p).reverse.dropWhile p :=
        (List.takeWhile_append_dropWhile p _).symm
      calc l.dropWhile p = (l.dropWhile p).reverse.reverse := (List.reverse_reverse _).symm
        _ = ((l.dropWhile p).reverse.takeWhile p ++
              (l.dropWhile p).reverse.dropWhile p).reverse := by rw [← h3]
        _ = ((l.dropWhile p).reverse.dropWhile p).reverse ++
              ((l.dropWhile p).reverse.takeWhile p).reverse := by rw [List.reverse_append]
        _ = trimBothB p l ++ ((l.dropWhile p).reverse.takeWhile p).reverse := rfl
    rw [← h2]
    exact h1
  · exact fun c hc => List.mem_takeWhile_imp hc
  · intro c hc
    rw [List.mem_reverse] at hc
    exact List.mem_takeWhile_imp hc

/-- Decomposition for the classifier's three-stage strip: the raw
answer is its cleaned core inside flanks of whitespace and dots. -/
theorem cleanCatL_decomp (l : List Char) :
    ∃ a b, l = a ++ (cleanCatL l ++ b) ∧
      (∀ c ∈ a, isWsDot c = true) ∧ (∀ c ∈ b, isWsDot c = true) := by
  obtain ⟨a1, b1, e1, ha1, hb1⟩ := trimBothB_decomp isWsPy l
  obtain ⟨a2, b2, e2, ha2, hb2⟩ := trimBothB_decomp isDotC (trimBothB isWsPy l)
  obtain ⟨a3, b3, e3, ha3, hb3⟩ :=
    trimBothB_decomp isWsPy (trimBothB isDotC (trimBothB isWsPy l))
  refine ⟨a1 ++ (a2 ++ a3), b3 ++ (b2 ++ b1), ?_, ?_, ?_⟩
  · conv_lhs => rw [e1, e2, e3]
    show a1 ++ ((a2 ++ ((a3 ++ (cleanCatL l ++ b3)) ++ b2)) ++ b1) = _
    simp [List.append_assoc]
  · intro c hc
    simp only [List.mem_append] at hc
    rcases hc with hc | hc | hc
    · simp [isWsDot, ha1 c hc]
    · simp [isWsDot, ha2 c hc]
    · simp [isWsDot, ha3 c hc]
  · intro c hc
    simp only [List.mem_append] at hc
    rcases hc with hc | hc | hc
    · simp [isWsDot, hb3 c hc]
    · simp [isWsDot, hb2 c hc]
    · simp [isWsDot, hb1 c hc]

/-- Lowercasing fixes whitespace and dots. -/
theorem lowerC_wsdot (c : Char) (h : isWsDot c = true) : lowerC c = c := by
  have hno : ¬('A' ≤ c ∧ c ≤ 'Z') := by
    simp only [isWsDot, isWsPy, isDotC, Bool.or_eq_true, decide_eq_true_eq] at h
    rcases h with (((((h | h) | h) | h) | h) | h) | h <;> subst h <;> decide
  unfold lowerC
  rw [if_neg hno]

/-- Lowercasing fixes all-whitespace-or-dot lists. -/
theorem lowerL_wsdot : ∀ a : List Char, (∀ c ∈ a, isWsDot c = true) → lowerL a = a := by
  intro a
  induction a with
  | nil => intro _; rfl
  | cons c t ih =>
    intro ha
    simp only [lowerL, List.map_cons] at ih ⊢
    rw [lowerC_wsdot c (ha c (by simp)), ih (fun x hx => ha x (by simp [hx]))]

/-- The cleaned core occurs (case-insensitively) in the raw answer. -/
theorem substr_core_of_decomp (X s a b : List Char) (hdecomp : s = a ++ (X ++ b)) :
    isSubstr (lowerL X) (lowerL s) = true := by
  rw [hdecomp]
  simp only [lowerL, List.map_append]
  exact isSubstr_sandwich_self (List.map lowerC X) (List.map lowerC a) (List.map lowerC b)

/-- A category absent from the cleaned core is absent from the raw
answer (its flanks are whitespace and dots, which no category
contains). -/
theorem substr_other_out (s a b X : List Char) (hdecomp : s = a ++ (X ++ b))
    (ha : ∀ c ∈ a, isWsDot c = true) (hb : ∀ c ∈ b, isWsDot c = true)
    (y : List Char) (hy0 : y ≠ []) (hy : ∀ c ∈ y, isWsDot c = false)
    (hnot : isSubstr y (lowerL X) = false) :
    isSubstr y (lowerL s) = false := by
  cases h : isSubstr y (lowerL s)
  · rfl
  · exfalso
    rw [hdecomp] at h
    simp only [lowerL, List.map_append] at h
    have ha2 : ∀ c ∈ List.map lowerC a, isWsDot c = true := by
      rw [show List.map lowerC a = a from lowerL_wsdot a ha]
      exact ha
    have hb2 : ∀ c ∈ List.map lowerC b, isWsDot c = true := by
      rw [show List.map lowerC b = b from lowerL_wsdot b hb]
      exact hb
    have hin := isSubstr_sandwich_inner isWsDot y _ _ _ hy0 hy ha2 hb2 h
    rw [show List.map lowerC X = lowerL X from rfl, hnot] at hin
    exact absurd hin (by simp)

/-- Containment in a string list implies membership. -/
theorem mem_of_containsS (l : List String) (a : String) (h : l.contains a = true) :
    a ∈ l := by
  rw [List.contains_iff_exists_mem_beq] at h
  obtain ⟨x, hx, hbeq⟩ := h
  rw [show a = x from eq_of_beq hbeq]
  exact hx

/-- The substring fallback finds exactly the enum value standing (up
to flanking whitespace and dots) inside the raw answer. -/
theorem substrFallback_of_decomp (s X : List Char) (a b : List Char)
    (hdecomp : s = a ++ (X ++ b))
    (ha : ∀ c ∈ a, isWsDot c = true) (hb : ∀ c ∈ b, isWsDot c = true)
    (x : String) (hx : x ∈ validCategories) (hX : X = x.toList) :
    substrFallback s = x.toList := by
  subst hX
  have hsub : isSubstr (lowerL x.toList) (lowerL s) = true :=
    substr_core_of_decomp _ s a b hdecomp
  have hprops : ∀ y ∈ validCategories,
      (∀ c ∈ lowerL y.toList, isWsDot c = false) ∧ lowerL y.toList ≠ [] := by decide
  have htable : ∀ y ∈ validCategories, ∀ z ∈ validCategories, y ≠ z →
      isSubstr (lowerL y.toList) (lowerL z.toList) = false := by decide
  have hnot : ∀ y : String, y ∈ validCategories → y ≠ x →
      isSubstr (lowerL y.toList) (lowerL s) = false := by
    intro y hy hyx
    exact substr_other_out s a b x.toList hdecomp ha hb (lowerL y.toList)
      ((hprops y hy).2) ((hprops y hy).1) (htable y hy x hx hyx)
  fin_cases hx
  · have hfind : List.find? (fun c => isSubstr (lowerL c.toList) (lowerL s))
        ["Food", "Transport", "Utility", "Entertainment"] = some "Food" := by
      simp only [List.find?_cons, hsub]
    unfold substrFallback validCategories
    rw [hfind]
  · have hF := hnot "Food" (by decide) (by decide)
    have hfind : List.find? (fun c => isSubstr (lowerL c.toList) (lowerL s))
        ["Food", "Transport", "Utility", "Entertainment"] = some "Transport" := by
      simp only [List.find?_cons, hsub, hF]
    unfold substrFallback validCategories
    rw [hfind]
  · have hF := hnot "Food" (by decide) (by decide)
    have hT := hnot "Transport" (by decide) (by decide)
    have hfind : List.find? (fun c => isSubstr (lowerL c.toList) (lowerL s))
        ["Food", "Transport", "Utility", "Entertainment"] = some "Utility" := by
      simp only [List.find?_cons, hsub, hF, hT]
    unfold substrFallback validCategories
    rw [hfind]
  · have hF := hnot "Food" (by decide) (by decide)
    have hT := hnot "Transport" (by decide) (by decide)
    have hU := hnot "Utility" (by decide) (by decide)
    have hfind : List.find? (fun c => isSubstr (lowerL c.toList) (lowerL s))
        ["Food", "Transport", "Utility", "Entertainment"] = some "Entertainment" := by
      simp only [List.find?_cons, hsub, hF, hT, hU]
    unfold substrFallback validCategories
    rw [hfind]

/-- The code's answer validation (strip, exact match, substring
fallback) computes the same category as the validation the spec
describes (exact match on the raw answer first, then the same
substring fallback). -/
theorem codeValidateCat_eq_spec (s : List Char) :
    codeValidateCat s = specValidateCat s := by
  unfold codeValidateCat specValidateCat
  by_cases h1 : validCategories.contains (String.mk s) = true
  · have hmem : String.mk s ∈ validCategories := mem_of_containsS _ _ h1
    have hclean : cleanCatL s = s := by
      have h4 : ∀ x ∈ validCategories, cleanCatL x.toList = x.toList := by decide
      have hs : s = (String.mk s).toList := rfl
      rw [hs]
      exact h4 _ hmem
    rw [hclean, if_pos h1]
  · rw [if_neg h1]
    by_cases h2 : validCategories.contains (String.mk (cleanCatL s)) = true
    · rw [if_pos h2]
      obtain ⟨a, b, hdecomp, ha, hb⟩ := cleanCatL_decomp s
      have hmem2 : String.mk (cleanCatL s) ∈ validCategories := mem_of_containsS _ _ h2
      exact (substrFallback_of_decomp s (cleanCatL s) a b hdecomp ha hb
        (String.mk (cleanCatL s)) hmem2 rfl).symm
    · rw [if_neg h2]

/-- The answer validation always lands in the enum. -/
theorem codeValidateCat_mem (s : List Char) :
    String.mk (codeValidateCat s) ∈ validCategories := by
  simp only [codeValidateCat]
  split
  · next h => exact mem_of_containsS _ _ h
  · unfold substrFallback
    cases hf : validCategories.find? (fun c => isSubstr (lowerL c.toList) (lowerL s)) with
    | none => decide
    | some c =>
      have hc := List.mem_of_find?_eq_some hf
      have he : String.mk c.toList = c := rfl
      rw [he]
      exact hc

/-- Every name collected for the classification prompt is a string
when the items are schema-wellformed. -/
theorem nomesOf_wf (items : List (List (String × JVal)))
    (hwf : ∀ it ∈ items, nomeWF it) :
    ∀ v ∈ nomesOf items, ∃ s, v = .str s := by
  intro v hv
  unfold nomesOf at hv
  rw [List.mem_filterMap] at hv
  obtain ⟨it, hit, hmap⟩ := hv
  have hit2 : it ∈ items := List.mem_of_mem_take hit
  cases hl : lookupLast it "nome" with
  | none =>
    simp only [hl] at hmap
    exact absurd hmap (by simp)
  | some w =>
    simp only [hl] at hmap
    by_cases htr : truthyJ w = true
    · rw [if_pos htr, Option.some.injEq] at hmap
      obtain ⟨s, hs⟩ := hwf it hit2 w hl htr
      exact ⟨s, by rw [← hmap, hs]⟩
    · rw [if_neg htr] at hmap
      exact absurd hmap (by simp)

/-- A list of strings joins without error. -/
theorem strsOfJ_ok (l : List JVal) (h : ∀ v ∈ l, ∃ s, v = .str s) :
    ∃ strs, strsOfJ l = some strs := by
  induction l with
  | nil => exact ⟨[], rfl⟩
  | cons v t ih =>
    obtain ⟨s, rfl⟩ := h v (by simp)
    obtain ⟨strs, hstrs⟩ := ih (fun w hw => h w (by simp [hw]))
    exact ⟨s :: strs, by simp [strsOfJ, hstrs]⟩

/-- C7.  `classify_expense_category` (i) never raises and always
returns a member of `{Food, Transport, Utility, Entertainment}` for
schema-wellformed items, whatever the model's raw answer or call
outcome; (ii) returns `Utility` for an empty item list without making
a network call; and (iii) validates the raw answer exactly as the
claim describes: case-sensitive enum match first (the code's
whitespace/dot strip before that match is observationally equivalent),
then case-insensitive substring search in the fixed order, then the
`Utility` default. -/
theorem c7_classifier_enum_safety :
    (∀ (hasCreds : Bool) (items : List (List (String × JVal)))
        (callRes : Except CallErr String),
        (∀ it ∈ items, nomeWF it) →
        ∃ r, classify_expense_category hasCreds items callRes = .ok r ∧
          r.1 ∈ validCategories) ∧
    (∀ (hasCreds : Bool) (callRes : Except CallErr String),
        classify_expense_category hasCreds [] callRes = .ok ("Utility", false)) ∧
    (∀ s : List Char, codeValidateCat s = specValidateCat s) := by
  refine ⟨?_, ?_, codeValidateCat_eq_spec⟩
  · intro hasCreds items callRes hwf
    unfold classify_expense_category
    split
    · exact ⟨("Utility", false), rfl, by decide⟩
    · obtain ⟨strs, hstrs⟩ := strsOfJ_ok (nomesOf items) (nomesOf_wf items hwf)
      simp only [pyJoinComma, hstrs]
      split
      · exact ⟨("Utility", false), rfl, by decide⟩
      · cases callRes with
        | error e => exact ⟨("Utility", true), rfl, by decide⟩
        | ok category =>
          exact ⟨(String.mk (codeValidateCat category.toList), true), rfl,
            codeValidateCat_mem _⟩
  · intro hasCreds callRes
    simp [classify_expense_category]

/-- C7, witness: the spec's own examples.  `"I think this is Food."`
validates to `Food` (substring tier), `"Groceries"` falls back to
`Utility`, and the empty item list short-circuits to `Utility` with no
network call. -/
theorem c7_classifier_enum_safety_witness :
    (∃ r, classify_expense_category true [[("nome", JVal.str "Pizza")]]
        (.ok "I think this is Food.") = .ok r ∧ r.1 ∈ validCategories) ∧
    classify_expense_category true [] (.ok "anything") = .ok ("Utility", false) ∧
    classify_expense_category true [[("nome", JVal.str "Pizza")]]
        (.ok "I think this is Food.") = .ok ("Food", true) ∧
    classify_expense_category true [[("nome", JVal.str "Pizza")]]
        (.ok "Groceries") = .ok ("Utility", true) := by
  have hwf : ∀ it ∈ [[("nome", JVal.str "Pizza")]], nomeWF it := by
    intro it hit
    simp only [List.mem_singleton] at hit
    subst hit
    intro v hv _
    rw [show lookupLast [("nome", JVal.str "Pizza")] "nome" = some (.str "Pizza") from rfl,
      Option.some.injEq] at hv
    exact ⟨"Pizza", hv.symm⟩
  refine ⟨c7_classifier_enum_safety.1 true _ _ hwf,
    c7_classifier_enum_safety.2.1 true _, ?_, ?_⟩
  · with_unfolding_all rfl
  · with_unfolding_all rfl

/-- C8.  For every filename whose extension (the part after the last
dot, or missing — including the empty filename) is outside
`{png, jpg, jpeg, pdf}` compared case-insensitively,
`save_uploaded_file` fails with the `InvalidFileType` error (the
`ValueError` of line 43) and writes no file: the returned filesystem
equals the input one.  The directory creation of line 39 creates no
file. -/
theorem c8_extension_gate (sanitize : String → String) (fs : List String)
    (filename : String) (uid : ℤ) (ts : String)
    (hext : extOf filename = none ∨
      ∃ e, extOf filename = some e ∧ lowerS e ∉ ALLOWED_EXTENSIONS) :
    save_uploaded_file sanitize fs filename uid ts =
      (.error (.valueError "Tipo de arquivo não permitido. Use: png, jpg, jpeg, pdf"), fs) := by
  have hall : allowed_file filename = false := by
    rcases hext with h | ⟨e, he, hmem⟩
    · unfold extOf at h
      split at h
      · exact absurd h (by simp)
      · next hdot =>
        simp only [String.toList] at hdot
        simp [allowed_file, String.toList, hdot]
    · unfold extOf at he
      split at he
      · rw [Option.some.injEq] at he
        subst he
        simp only [String.toList] at hmem
        simp [allowed_file, String.toList, hmem]
      · exact absurd he (by simp)
  unfold save_uploaded_file
  rw [hall]
  simp

/-- C8, witness at the concrete rejected filename `malware.exe`. -/
theorem c8_extension_gate_witness :
    (extOf "malware.exe" = none ∨
      ∃ e, extOf "malware.exe" = some e ∧ lowerS e ∉ ALLOWED_EXTENSIONS) ∧
    save_uploaded_file id [] "malware.exe" 7 "20240101_100000" =
      (.error (.valueError "Tipo de arquivo não permitido. Use: png, jpg, jpeg, pdf"), []) :=
  ⟨Or.inr ⟨"exe", by decide⟩,
   c8_extension_gate id [] "malware.exe" 7 "20240101_100000" (Or.inr ⟨"exe", by decide⟩)⟩

/-- C9.  When no API credential is configured (`API_KEY` unset and
`GOOGLE_APPLICATION_CREDENTIALS` unset), `analyze_receipt_image` fails
with the dedicated configuration `ValueError` of lines 51–54 — a
message distinct from every transport failure's — and the network-call
flag is false: the check runs before any request is built or sent. -/
theorem c9_config_error_fail_fast (apiKey appCreds : Option String)
    (readRes : Except ReadErr Unit) (genaiAvail : Bool)
    (callRes : Except CallErr String) (imagePath : String)
    (h1 : apiKey = none) (h2 : appCreds = none) :
    analyze_receipt_image apiKey appCreds readRes genaiAvail callRes imagePath =
      (.error (.valueError configErrMsg), false) ∧
    PyErr.valueError configErrMsg ≠
      PyErr.valueError "Erro de conexão com o endpoint Gemini REST. Verifique a internet." := by
  subst h1 h2
  exact ⟨by simp [analyze_receipt_image], by decide⟩

/-- C9, witness at a concrete credential-less call. -/
theorem c9_config_error_fail_fast_witness :
    analyze_receipt_image none none (.ok ()) true (.ok "answer") "uploads/r.jpg" =
      (.error (.valueError configErrMsg), false) ∧
    PyErr.valueError configErrMsg ≠
      PyErr.valueError "Erro de conexão com o endpoint Gemini REST. Verifique a internet." :=
  ⟨(c9_config_error_fail_fast none none (.ok ()) true (.ok "answer") "uploads/r.jpg" rfl rfl).1,
   (c9_config_error_fail_fast none none (.ok ()) true (.ok "answer") "uploads/r.jpg" rfl rfl).2⟩

/-- C10.  For every raw item kept by the normalizer, if the item has no
`valor_unitario` key then the produced line item's `valor_unitario`
equals its coerced total `valor_total` (which is `valor_total`, or
`valor` when `valor_total` is absent or falsy): line 79 defaults
`float(item.get("valor_unitario", valor))` to the already-coerced
`valor`. -/
theorem c10_unit_price_default (ikvs : List (String × JVal)) (li : LineItem)
    (hnone : lookupLast ikvs "valor_unitario" = none)
    (hstep : itemStep ikvs = some li) :
    li.valor_unitario = li.valor_total := by
  have hg : ∀ q : ℚ, pyGetD ikvs "valor_unitario" (.num q) = .num q := by
    intro q
    simp [pyGetD, hnone]
  simp only [itemStep] at hstep
  split at hstep
  · exact absurd hstep (by simp)
  · rw [hg] at hstep
    split at hstep
    · exact absurd hstep (by simp)
    · simp only [pyFloat, Option.some.injEq] at hstep
      rw [← hstep]

/-- C10, witness at a concrete item with only a `valor_total` key. -/
theorem c10_unit_price_default_witness :
    lookupLast [("valor_total", JVal.num 10)] "valor_unitario" = none ∧
    (⟨JVal.str "Item desconhecido", 1, 10, 10⟩ : LineItem).valor_unitario =
      (⟨JVal.str "Item desconhecido", 1, 10, 10⟩ : LineItem).valor_total :=
  ⟨rfl, c10_unit_price_default [("valor_total", JVal.num 10)] _ rfl rfl⟩

end OrganizaAi
